import Mathlib

/-!
A shallow embedding of the wedding-invitation guestbook service
(`main.py`): the wish store operated on by the three API routes
(`get_wishes`, `add_wish`, `delete_wish`) and the websocket
`ConnectionManager` (`connect` / `disconnect` / `broadcast`).

External nondeterminism is made explicit: the sha256 hex digest is an
abstract function `hash : String → String`, the generated `uuid4` and the
formatted current date are parameters of `add_wish`, and the outcome of
`send_json` on a connection is a field of the connection.
-/

namespace Guestbook

/-- A stored wish record: one object of the `wishes` array of
`data/wishes.json`.  `id` is absent on legacy records; `password_hash`
holds the sha256 hex digest on records created by `add_wish`; `password`
holds the legacy plaintext password. -/
structure Wish where
  id : Option String
  name : String
  message : String
  date : String
  password_hash : Option String
  password : Option String
  deriving Repr, DecidableEq

/-- The sanitized projection exposed by the API: exactly the fields
`id`, `name`, `message`, `date`. -/
structure SanitizedWish where
  id : String
  name : String
  message : String
  date : String
  deriving Repr, DecidableEq

/-- A broadcast event as sent over the websocket: either
`{action: "new_wish", wish: …}` or `{action: "delete_wish", id: …}`. -/
inductive Event where
  | new_wish (wish : SanitizedWish)
  | delete_wish (id : String)
  deriving Repr, DecidableEq

/-- The ASCII fragment of Python `str.isdigit()`: nonempty and every
character an ASCII decimal digit.  Python's full predicate also accepts
non-ASCII digit-property characters (e.g. the superscript two), for
which `int(...)` then raises `ValueError`; that raising route is
modelled by `pyIsDigitU`/`pyIntU`/`matchesIdU` below. -/
def pyIsDigit (s : String) : Bool :=
  !s.data.isEmpty && s.data.all Char.isDigit

/-- One step of decimal accumulation, as performed by `int(...)`. -/
def decStep (n : Nat) (c : Char) : Nat :=
  10 * n + (c.toNat - 48)

/-- The value of Python `int(s)` on an all-digit string `s`. -/
def decValue (s : String) : Nat :=
  s.data.foldl decStep 0

/-- The id test of `delete_wish` at index `i`:
`stored_id = wish.get("id")`, replaced by `str(i)` for an id-less record
when `wish_id.isdigit() and i == int(wish_id)`, then compared to
`wish_id` (a remaining `None` never equals a string).  Exact whenever
the record has an explicit id or the supplied id is ASCII; the
Unicode-aware test with the `int()` `ValueError` path made explicit is
`matchesIdU`. -/
def matchesId (wish_id : String) (i : Nat) (w : Wish) : Bool :=
  match w.id with
  | some s => s == wish_id
  | none => pyIsDigit wish_id && (i == decValue wish_id) && (toString i == wish_id)

/-- The comprehension body of `get_wishes`: `w.get("id", str(i))` plus
the three public fields. -/
def sanitize (i : Nat) (w : Wish) : SanitizedWish :=
  { id := w.id.getD (toString i), name := w.name, message := w.message, date := w.date }

/-- `GET /api/wishes`: the sanitized list, ids defaulting to the index. -/
def get_wishes (wishes : List Wish) : List SanitizedWish :=
  wishes.enum.map (fun p => sanitize p.1 p.2)

/-- The record built by `add_wish` from the request body together with
the generated uuid and the formatted date. -/
def mk_new_wish (hash : String → String) (wish_id name message password date : String) : Wish :=
  { id := some wish_id, name := name, message := message, date := date,
    password_hash := some (hash password), password := none }

/-- The sanitized response body of `add_wish`. -/
def sanitized_response (wish_id name message date : String) : SanitizedWish :=
  { id := wish_id, name := name, message := message, date := date }

/-- `POST /api/wishes`.  `hash` models `hash_password`, `wish_id` the
generated `uuid4`, `date` the formatted current time.  Returns the
response body, the new store state (`insert(0, …)`), and the broadcast
events issued. -/
def add_wish (hash : String → String) (wish_id date name message password : String)
    (wishes : List Wish) : SanitizedWish × List Wish × List Event :=
  let new_wish := mk_new_wish hash wish_id name message password date
  let response := sanitized_response wish_id name message date
  (response, new_wish :: wishes, [Event.new_wish response])

/-- Outcome of `delete_wish`: the success body or an `HTTPException`. -/
inductive DeleteOutcome where
  | ok
  | httpError (status : Nat) (detail : String)
  deriving Repr, DecidableEq

/-- The password check run once a wish matches: hashed passwords first,
then legacy plaintext, else `"Password verification failed"`.  Returns
`none` when the check passes, the 401 outcome otherwise. -/
def passwordCheck (hash : String → String) (supplied : String) (w : Wish) :
    Option DeleteOutcome :=
  match w.password_hash with
  | some hv =>
    if hash supplied != hv then some (.httpError 401 "Invalid password") else none
  | none =>
    match w.password with
    | some pv =>
      if supplied != pv then some (.httpError 401 "Invalid password") else none
    | none => some (.httpError 401 "Password verification failed")

/-- The `enumerate` loop of `delete_wish`, starting at index `i`.  On the
error paths the store is returned unchanged and nothing is broadcast; on
success the matched record is popped and `{action: "delete_wish", id}`
broadcast. -/
def delete_loop (hash : String → String) (wish_id password : String) :
    Nat → List Wish → DeleteOutcome × List Wish × List Event
  | _, [] => (.httpError 404 "Wish not found", [], [])
  | i, w :: rest =>
    if matchesId wish_id i w then
      match passwordCheck hash password w with
      | some err => (err, w :: rest, [])
      | none => (.ok, rest, [Event.delete_wish wish_id])
    else
      let r := delete_loop hash wish_id password (i + 1) rest
      (r.1, w :: r.2.1, r.2.2)

/-- `DELETE /api/wishes/{wish_id}`. -/
def delete_wish (hash : String → String) (wish_id password : String) (wishes : List Wish) :
    DeleteOutcome × List Wish × List Event :=
  delete_loop hash wish_id password 0 wishes

/-- A live websocket connection; `sendOk` records whether `send_json`
succeeds on it for the event being broadcast. -/
structure Conn where
  id : Nat
  sendOk : Bool
  deriving Repr, DecidableEq

/-- `ConnectionManager.broadcast`: a sequential `send_json` loop with no
exception handling.  Returns the deliveries made (connection id, event),
whether an exception escaped the loop, and `active_connections`
afterwards (the loop never mutates the list). -/
def broadcast (msg : Event) : List Conn → List (Nat × Event) × Bool × List Conn
  | [] => ([], false, [])
  | c :: rest =>
    if c.sendOk then
      let r := broadcast msg rest
      ((c.id, msg) :: r.1, r.2.1, c :: r.2.2)
    else ([], true, c :: rest)

/-- Python `list.remove(x)`: removes the first occurrence of `x`,
raises `ValueError` when `x` is absent. -/
def removeFirst (x : Conn) : List Conn → Except String (List Conn)
  | [] => .error "list.remove(x): x not in list"
  | c :: rest =>
    if c = x then .ok rest
    else (removeFirst x rest).map (fun l => c :: l)

/-- `ConnectionManager.disconnect`. -/
def disconnect (conns : List Conn) (ws : Conn) : Except String (List Conn) :=
  removeFirst ws conns

/-- The record with every secret field blanked; used to state that the
public views do not depend on the secrets. -/
def scrub (w : Wish) : Wish :=
  { w with password_hash := none, password := none }

/-- Python `str.isdigit()` over an arbitrary per-character
digit-property table `isdig` (Python accepts every character with the
Unicode digit property, not only ASCII decimal digits). -/
def pyIsDigitU (isdig : Char → Bool) (s : String) : Bool :=
  !s.data.isEmpty && s.data.all isdig

/-- One step of Python `int(...)` accumulation over a per-character
decimal-value table: a character without a decimal value poisons the
parse. -/
def pyIntStep (decv : Char → Option Nat) (acc : Option Nat) (c : Char) : Option Nat :=
  match acc, decv c with
  | some n, some d => some (10 * n + d)
  | _, _ => none

/-- Python `int(s)` on a digit-property string over the decimal-value
table `decv`: succeeds iff every character carries a decimal value,
folding them in base 10; a character with the digit property but no
decimal value (e.g. the superscript two) makes `int()` raise
`ValueError` (`none`). -/
def pyIntU (decv : Char → Option Nat) (s : String) : Option Nat :=
  s.data.foldl (pyIntStep decv) (some 0)

/-- Unicode-aware id test of `delete_wish` at index `i`, with the
raising path explicit: for an id-less record the code evaluates
`wish_id.isdigit()` and then `int(wish_id)` — when the latter raises
(`pyIntU … = none`) the exception propagates (`none`); otherwise the
boolean match outcome is returned. -/
def matchesIdU (isdig : Char → Bool) (decv : Char → Option Nat)
    (wish_id : String) (i : Nat) (w : Wish) : Option Bool :=
  match w.id with
  | some s => some (s == wish_id)
  | none =>
    if pyIsDigitU isdig wish_id then
      match pyIntU decv wish_id with
      | none => none
      | some v => some ((i == v) && (toString i == wish_id))
    else some false

/-- The `enumerate` loop of `delete_wish` with the `ValueError` path of
`int(wish_id)` propagated (`none`); otherwise as `delete_loop`. -/
def delete_loopU (isdig : Char → Bool) (decv : Char → Option Nat)
    (hash : String → String) (wish_id password : String) :
    Nat → List Wish → Option (DeleteOutcome × List Wish × List Event)
  | _, [] => some (.httpError 404 "Wish not found", [], [])
  | i, w :: rest =>
    match matchesIdU isdig decv wish_id i w with
    | none => none
    | some true =>
      match passwordCheck hash password w with
      | some err => some (err, w :: rest, [])
      | none => some (.ok, rest, [Event.delete_wish wish_id])
    | some false =>
      match delete_loopU isdig decv hash wish_id password (i + 1) rest with
      | none => none
      | some r => some (r.1, w :: r.2.1, r.2.2)

/-- The HTTP 500 detail `f"Server error: {str(e)}"` built by the
`except Exception` arm for the `ValueError` of `int(wish_id)`; the
interpreter message cites the offending literal (its quoting is
elided here). -/
def valueErrorDetail (wish_id : String) : String :=
  "Server error: invalid literal for int() with base 10: " ++ wish_id

/-- `DELETE /api/wishes/{wish_id}` with the `except Exception` wrapper:
a `ValueError` escaping the loop surfaces as HTTP 500, before any
mutation or broadcast. -/
def delete_wishU (isdig : Char → Bool) (decv : Char → Option Nat)
    (hash : String → String) (wish_id password : String) (wishes : List Wish) :
    DeleteOutcome × List Wish × List Event :=
  match delete_loopU isdig decv hash wish_id password 0 wishes with
  | some r => r
  | none => (.httpError 500 (valueErrorDetail wish_id), wishes, [])

/-- Python's per-character digit property, tabulated on the characters
this development evaluates concretely: the ASCII decimal digits and the
superscript two `'²'` (which `str.isdigit()` accepts while `int()`
rejects — checked against CPython). -/
def isdigitTable (c : Char) : Bool :=
  c.isDigit || c == '²'

/-- Python's per-character decimal value on the same characters: the
ASCII decimal digits carry their value; the superscript two has the
digit property but no decimal value, so `int()` raises on it. -/
def decimalTable (c : Char) : Option Nat :=
  if c.isDigit then some (c.toNat - 48) else none

/-- Reference decimal digit list of a natural number, most significant
digit first; used to reason about Python `str(i)` (i.e. `Nat.repr`). -/
def decChars (n : Nat) : List Char :=
  if _h : n < 10 then [Nat.digitChar n]
  else decChars (n / 10) ++ [Nat.digitChar (n % 10)]
termination_by n
decreasing_by
  exact Nat.div_lt_self (by omega) (by omega)

/-- Store states reachable from the empty store by the code's mutating
operations, each record paired with the (abstract, monotone) creation
time of the operation that inserted it.  `fmt` renders a creation time
as the formatted date string; `t` bounds the creation times used so far.
An `add` step prepends the record `add_wish` builds; a `del` step keeps
exactly the records a successful `delete_wish` keeps (every successful
`delete_wish` erases one index of the store, see
`delete_loop_ok_eraseIdx`). -/
inductive Reach (hash : String → String) (fmt : Nat → String) : Nat → List (Nat × Wish) → Prop
  | init : Reach hash fmt 0 []
  | add {t : Nat} {l : List (Nat × Wish)} (tn : Nat) (wid n m p : String) :
      Reach hash fmt t l → t ≤ tn →
      Reach hash fmt tn ((tn, mk_new_wish hash wid n m p (fmt tn)) :: l)
  | del {t : Nat} {l : List (Nat × Wish)} (wid pw : String) (i : Nat) :
      Reach hash fmt t l →
      (delete_wish hash wid pw (l.map Prod.snd)).1 = DeleteOutcome.ok →
      (delete_wish hash wid pw (l.map Prod.snd)).2.1 = (l.eraseIdx i).map Prod.snd →
      Reach hash fmt t (l.eraseIdx i)

theorem toDigitsCore_eq (n : Nat) : ∀ (f : Nat), n < f → ∀ ds : List Char,
    Nat.toDigitsCore 10 f n ds = decChars n ++ ds := by
  induction n using Nat.strong_induction_on with
  | _ n ih =>
    intro f hf ds
    obtain ⟨g, rfl⟩ : ∃ g, f = g + 1 := ⟨f - 1, by omega⟩
    rw [Nat.toDigitsCore]
    by_cases h10 : n / 10 = 0
    · rw [if_pos h10, decChars, dif_pos (by omega : n < 10),
        Nat.mod_eq_of_lt (by omega : n < 10)]
      rfl
    · rw [if_neg h10,
        ih (n / 10) (Nat.div_lt_self (by omega) (by omega)) g (by omega) _]
      conv_rhs => rw [decChars, dif_neg (by omega : ¬ n < 10)]
      simp

theorem repr_eq_decChars (n : Nat) : Nat.repr n = ⟨decChars n⟩ := by
  show (Nat.toDigits 10 n).asString = _
  rw [Nat.toDigits, toDigitsCore_eq n (n + 1) (Nat.lt_succ_self n) []]
  simp [List.asString]

theorem toString_nat_eq (n : Nat) : toString n = String.mk (decChars n) :=
  repr_eq_decChars n

theorem digitChar_isDigit (m : Nat) (h : m < 10) : (Nat.digitChar m).isDigit = true := by
  interval_cases m <;> decide

theorem digitChar_toNat (m : Nat) (h : m < 10) : (Nat.digitChar m).toNat = 48 + m := by
  interval_cases m <;> decide

theorem decChars_ne_nil (n : Nat) : decChars n ≠ [] := by
  rw [decChars]
  by_cases h : n < 10
  · rw [dif_pos h]; simp
  · rw [dif_neg h]; simp

theorem decChars_all_isDigit (n : Nat) : ∀ c ∈ decChars n, c.isDigit = true := by
  induction n using Nat.strong_induction_on with
  | _ n ih =>
    rw [decChars]
    by_cases h : n < 10
    · rw [dif_pos h]
      intro c hc
      simp only [List.mem_singleton] at hc
      subst hc
      exact digitChar_isDigit n h
    · rw [dif_neg h]
      intro c hc
      rcases List.mem_append.mp hc with h1 | h2
      · exact ih (n / 10) (Nat.div_lt_self (by omega) (by omega)) c h1
      · simp only [List.mem_singleton] at h2
        subst h2
        exact digitChar_isDigit _ (Nat.mod_lt _ (by omega))

theorem foldl_decChars (n : Nat) : ∀ acc : Nat,
    (decChars n).foldl decStep acc = acc * 10 ^ (decChars n).length + n := by
  induction n using Nat.strong_induction_on with
  | _ n ih =>
    intro acc
    conv_lhs => rw [decChars]
    conv_rhs => rw [decChars]
    by_cases h : n < 10
    · rw [dif_pos h]
      simp [decStep, digitChar_toNat n h]
      omega
    · rw [dif_neg h]
      rw [List.foldl_append]
      rw [ih (n / 10) (Nat.div_lt_self (by omega) (by omega)) acc]
      simp [decStep, digitChar_toNat (n % 10) (Nat.mod_lt _ (by omega))]
      rw [pow_succ]
      have := Nat.div_add_mod n 10
      ring_nf
      omega

/-- Python `int(str(i)) == i`. -/
theorem decValue_toString (n : Nat) : decValue (toString n) = n := by
  rw [toString_nat_eq, decValue]
  show (decChars n).foldl decStep 0 = n
  rw [foldl_decChars n 0]
  simp

/-- Python `str(i).isdigit()` is true. -/
theorem pyIsDigit_toString (n : Nat) : pyIsDigit (toString n) = true := by
  rw [toString_nat_eq, pyIsDigit]
  show (!(decChars n).isEmpty && (decChars n).all Char.isDigit) = true
  rw [Bool.and_eq_true]
  constructor
  · cases hd : decChars n with
    | nil => exact absurd hd (decChars_ne_nil n)
    | cons a l => simp [hd, List.isEmpty]
  · exact List.all_eq_true.mpr (decChars_all_isDigit n)

/-- An id-less record at index `i` matches a supplied id exactly when the
supplied id is the canonical decimal string of `i`. -/
theorem matchesId_none_iff (wish_id : String) (i : Nat) (w : Wish) (h : w.id = none) :
    matchesId wish_id i w = true ↔ wish_id = toString i := by
  rw [matchesId, h]
  constructor
  · intro hb
    simp only [Bool.and_eq_true] at hb
    rcases hb with ⟨-, h3⟩
    exact (beq_iff_eq.mp h3).symm
  · intro hb
    subst hb
    simp [pyIsDigit_toString, decValue_toString]

theorem snd_mem_of_mem_enumFrom {α : Type} (l : List α) (k : Nat) (p : Nat × α)
    (h : p ∈ l.enumFrom k) : p.2 ∈ l := by
  induction l generalizing k with
  | nil => simp [List.enumFrom] at h
  | cons a rest ih =>
    rw [List.enumFrom_cons] at h
    rcases List.mem_cons.mp h with h | h
    · subst h
      exact List.mem_cons_self _ _
    · exact List.mem_cons_of_mem _ (ih (k + 1) h)

theorem getElem?_enumFrom {α : Type} (l : List α) : ∀ (k i : Nat),
    (l.enumFrom k)[i]? = l[i]?.map (fun a => (k + i, a)) := by
  induction l with
  | nil => intro k i; simp [List.enumFrom]
  | cons a rest ih =>
    intro k i
    rw [List.enumFrom_cons]
    cases i with
    | zero => simp
    | succ j =>
      have harith : k + 1 + j = k + (j + 1) := by omega
      simp only [List.getElem?_cons_succ]
      rw [ih (k + 1) j, harith]

theorem map_eraseIdx {α β : Type} (f : α → β) : ∀ (l : List α) (i : Nat),
    (l.eraseIdx i).map f = (l.map f).eraseIdx i := by
  intro l
  induction l with
  | nil => intro i; simp
  | cons a rest ih =>
    intro i
    cases i with
    | zero => simp
    | succ j => simp [List.eraseIdx_cons_succ, ih j]

/-- `passwordCheck` only ever signals a 401 outcome. -/
theorem passwordCheck_ne_ok (hash : String → String) (pw : String) (w : Wish) (o : DeleteOutcome)
    (h : passwordCheck hash pw w = some o) : o ≠ DeleteOutcome.ok := by
  intro he
  subst he
  rw [passwordCheck] at h
  cases hph : w.password_hash with
  | some hv =>
    rw [hph] at h
    by_cases hb : hash pw != hv <;> simp [hb] at h
  | none =>
    rw [hph] at h
    cases hpp : w.password with
    | some pv =>
      rw [hpp] at h
      by_cases hb : pw != pv <;> simp [hb] at h
    | none =>
      rw [hpp] at h
      simp at h

/-- When no record from index `k` on matches, the loop reports 404,
returns the store unchanged and broadcasts nothing. -/
theorem delete_loop_no_match (hash : String → String) (wid pw : String) :
    ∀ (s : List Wish) (k : Nat),
      (∀ p ∈ s.enumFrom k, matchesId wid p.1 p.2 = false) →
      delete_loop hash wid pw k s = (.httpError 404 "Wish not found", s, []) := by
  intro s
  induction s with
  | nil => intro k _; rfl
  | cons w rest ih =>
    intro k h
    have h0 : matchesId wid k w = false := by
      have := h (k, w) (by rw [List.enumFrom_cons]; exact List.mem_cons_self _ _)
      exact this
    have hrest : ∀ p ∈ rest.enumFrom (k + 1), matchesId wid p.1 p.2 = false := by
      intro p hp
      exact h p (by rw [List.enumFrom_cons]; exact List.mem_cons_of_mem _ hp)
    rw [delete_loop]
    simp only [h0, Bool.false_eq_true, if_false, ih (k + 1) hrest]

/-- The loop skips a matchless front segment of the store. -/
theorem delete_loop_skip (hash : String → String) (wid pw : String) :
    ∀ (pre : List Wish) (k : Nat) (rest : List Wish),
      (∀ p ∈ pre.enumFrom k, matchesId wid p.1 p.2 = false) →
      delete_loop hash wid pw k (pre ++ rest) =
        ((delete_loop hash wid pw (k + pre.length) rest).1,
         pre ++ (delete_loop hash wid pw (k + pre.length) rest).2.1,
         (delete_loop hash wid pw (k + pre.length) rest).2.2) := by
  intro pre
  induction pre with
  | nil => intro k rest _; simp
  | cons w pre ih =>
    intro k rest h
    have h0 : matchesId wid k w = false :=
      h (k, w) (by rw [List.enumFrom_cons]; exact List.mem_cons_self _ _)
    have hpre : ∀ p ∈ pre.enumFrom (k + 1), matchesId wid p.1 p.2 = false := by
      intro p hp
      exact h p (by rw [List.enumFrom_cons]; exact List.mem_cons_of_mem _ hp)
    have harith : k + 1 + pre.length = k + (pre.length + 1) := by omega
    rw [List.cons_append, delete_loop]
    simp only [h0, Bool.false_eq_true, if_false, ih (k + 1) rest hpre, harith]
    simp [List.length_cons]

/-- The store returned by the loop is an order-preserving sublist of the
input store. -/
theorem delete_loop_sublist (hash : String → String) (wid pw : String) :
    ∀ (s : List Wish) (k : Nat), List.Sublist (delete_loop hash wid pw k s).2.1 s := by
  intro s
  induction s with
  | nil => intro k; simp [delete_loop]
  | cons w rest ih =>
    intro k
    rw [delete_loop]
    by_cases h0 : matchesId wid k w
    · rw [if_pos h0]
      cases passwordCheck hash pw w with
      | some err => exact List.Sublist.refl _
      | none => exact List.sublist_cons_of_sublist _ (List.Sublist.refl _)
    · rw [if_neg h0]
      exact List.Sublist.cons₂ _ (ih (k + 1))

/-- The loop broadcasts nothing or exactly one delete event for the
supplied id. -/
theorem delete_loop_events (hash : String → String) (wid pw : String) :
    ∀ (s : List Wish) (k : Nat),
      (delete_loop hash wid pw k s).2.2 = [] ∨
      (delete_loop hash wid pw k s).2.2 = [Event.delete_wish wid] := by
  intro s
  induction s with
  | nil => intro k; left; rfl
  | cons w rest ih =>
    intro k
    rw [delete_loop]
    by_cases h0 : matchesId wid k w
    · rw [if_pos h0]
      cases passwordCheck hash pw w with
      | some err => left; rfl
      | none => right; rfl
    · rw [if_neg h0]
      exact ih (k + 1)

/-- On a successful delete over a store whose records all carry explicit,
pairwise-distinct ids, no surviving record carries the deleted id. -/
theorem delete_loop_ok_no_id (hash : String → String) (wid pw : String) :
    ∀ (s : List Wish) (k : Nat),
      (∀ w ∈ s, w.id.isSome) → (s.map Wish.id).Nodup →
      (delete_loop hash wid pw k s).1 = .ok →
      ∀ w ∈ (delete_loop hash wid pw k s).2.1, w.id ≠ some wid := by
  intro s
  induction s with
  | nil => intro k _ _ hok; simp [delete_loop] at hok
  | cons w rest ih =>
    intro k hsome hnd hok
    rw [delete_loop] at hok ⊢
    by_cases h0 : matchesId wid k w
    · rw [if_pos h0] at hok ⊢
      cases hpc : passwordCheck hash pw w with
      | some err =>
        rw [hpc] at hok
        exact absurd hok (passwordCheck_ne_ok hash pw w err hpc)
      | none =>
        show ∀ w' ∈ rest, w'.id ≠ some wid
        intro w' hw' he
        obtain ⟨x, hx⟩ := Option.isSome_iff_exists.mp (hsome w (List.mem_cons_self _ _))
        have hxwid : x = wid := by
          rw [matchesId, hx] at h0
          exact beq_iff_eq.mp h0
        have : w.id ∉ rest.map Wish.id := (List.nodup_cons.mp hnd).1
        apply this
        rw [hx, hxwid, ← he]
        exact List.mem_map_of_mem _ hw'
    · rw [if_neg h0] at hok ⊢
      intro w' hw'
      rcases List.mem_cons.mp hw' with hw | hw
      · subst hw
        obtain ⟨x, hx⟩ := Option.isSome_iff_exists.mp (hsome w' (List.mem_cons_self _ _))
        rw [hx]
        intro he
        apply h0
        rw [matchesId, hx]
        exact beq_iff_eq.mpr (Option.some.inj he)
      · exact ih (k + 1) (fun v hv => hsome v (List.mem_cons_of_mem _ hv))
          (List.nodup_cons.mp hnd).2 hok w' hw

/-- Every successful run of the delete loop erases exactly one index of
the store. -/
theorem delete_loop_ok_eraseIdx (hash : String → String) (wid pw : String) :
    ∀ (s : List Wish) (k : Nat),
      (delete_loop hash wid pw k s).1 = DeleteOutcome.ok →
      ∃ i, (delete_loop hash wid pw k s).2.1 = s.eraseIdx i := by
  intro s
  induction s with
  | nil => intro k hok; simp [delete_loop] at hok
  | cons w rest ih =>
    intro k hok
    rw [delete_loop] at hok ⊢
    by_cases h0 : matchesId wid k w
    · rw [if_pos h0] at hok ⊢
      cases hpc : passwordCheck hash pw w with
      | some err =>
        rw [hpc] at hok
        exact absurd hok (passwordCheck_ne_ok hash pw w err hpc)
      | none =>
        refine ⟨0, ?_⟩
        show rest = (w :: rest).eraseIdx 0
        rfl
    · rw [if_neg h0] at hok ⊢
      obtain ⟨i, hi⟩ := ih (k + 1) hok
      refine ⟨i + 1, ?_⟩
      show w :: (delete_loop hash wid pw (k + 1) rest).2.1 = (w :: rest).eraseIdx (i + 1)
      rw [List.eraseIdx_cons_succ, hi]

/-- Over a reachable paired store the creation times are newest-first and
bounded by the clock. -/
theorem reach_pairwise (hash : String → String) (fmt : Nat → String) (t : Nat)
    (l : List (Nat × Wish)) (h : Reach hash fmt t l) :
    List.Pairwise (fun a b : Nat × Wish => b.1 ≤ a.1) l ∧ ∀ q ∈ l, q.1 ≤ t := by
  induction h with
  | init => exact ⟨List.Pairwise.nil, by simp⟩
  | add tn wid n m p hr hle ih =>
    refine ⟨List.Pairwise.cons ?_ ih.1, ?_⟩
    · intro b hb
      exact le_trans (ih.2 b hb) hle
    · intro q hq
      rcases List.mem_cons.mp hq with hq | hq
      · subst hq; exact le_refl _
      · exact le_trans (ih.2 q hq) hle
  | del wid pw i hr hok hst ih =>
    refine ⟨List.Pairwise.sublist (List.eraseIdx_sublist _ i) ih.1, ?_⟩
    intro q hq
    exact ih.2 q (List.Sublist.mem hq (List.eraseIdx_sublist _ i))

/-- `get_wishes` reads the store positionally, in store order. -/
theorem get_wishes_paired (l : List (Nat × Wish)) :
    get_wishes (l.map Prod.snd) = l.enum.map (fun q => sanitize q.1 q.2.2) := by
  show (List.enumFrom 0 (l.map Prod.snd)).map (fun p => sanitize p.1 p.2)
      = (List.enumFrom 0 l).map (fun q => sanitize q.1 q.2.2)
  rw [List.enumFrom_map, List.map_map]
  rfl

/-- C1 (counterexample): with the live set `[{id 0, failing}, {id 1, ok}]`,
a delivery failure on connection 0 aborts the whole broadcast: connection 1
receives nothing, the exception escapes, and connection 0 is still in the
live set — it is not removed.  This refutes the claim that a per-connection
failure is captured, converted into a `Remove`, and never aborts delivery
to the remaining connections. -/
theorem C1_counterexample :
    (broadcast (Event.delete_wish "x") [⟨0, false⟩, ⟨1, true⟩]).1 = [] ∧
    (broadcast (Event.delete_wish "x") [⟨0, false⟩, ⟨1, true⟩]).2.1 = true ∧
    (broadcast (Event.delete_wish "x") [⟨0, false⟩, ⟨1, true⟩]).2.2 = [⟨0, false⟩, ⟨1, true⟩] := by
  exact ⟨rfl, rfl, rfl⟩

/-- C1 (amended): `broadcast` delivers the event to the connections of the
longest all-healthy front segment of the live set, in order; the first
delivery failure propagates as an exception (aborting delivery to every
later connection), and the live set is left unchanged — in particular the
failing connection is not removed. -/
theorem C1_broadcast_aborts_on_failure (msg : Event) (conns : List Conn) :
    broadcast msg conns =
      ((conns.takeWhile (fun c => c.sendOk)).map (fun c => (c.id, msg)),
       conns.any (fun c => !c.sendOk),
       conns) := by
  induction conns with
  | nil => rfl
  | cons c rest ih =>
    rw [broadcast]
    by_cases h : c.sendOk
    · rw [if_pos h, ih]
      simp [List.takeWhile_cons, List.any_cons, h]
    · rw [if_neg h]
      have hb : c.sendOk = false := by
        cases hc : c.sendOk
        · rfl
        · exact absurd hc h
      simp [List.takeWhile_cons, List.any_cons, hb]

/-- C4 (counterexample): removing a handle that is not in the live set
raises `ValueError` instead of being a no-op, so removing the same handle
twice faults: the claim of idempotent, error-free removal is false. -/
theorem C4_counterexample :
    disconnect [⟨0, true⟩] ⟨0, true⟩ = Except.ok [] ∧
    disconnect ([] : List Conn) ⟨0, true⟩ =
      Except.error "list.remove(x): x not in list" := by
  exact ⟨rfl, rfl⟩

/-- C4 (amended): `disconnect` removes the first occurrence of the handle
when it is present in the live set, and raises `ValueError` (it is an
error, not a no-op) when the handle is absent. -/
theorem C4_disconnect_not_idempotent (conns : List Conn) (c : Conn) :
    disconnect conns c =
      if c ∈ conns then Except.ok (conns.erase c)
      else Except.error "list.remove(x): x not in list" := by
  rw [disconnect]
  induction conns with
  | nil => simp [removeFirst]
  | cons d rest ih =>
    rw [removeFirst]
    by_cases h : d = c
    · subst h
      simp [List.erase_cons]
    · rw [if_neg h, ih]
      by_cases hm : c ∈ rest
      · rw [if_pos hm, if_pos (List.mem_cons_of_mem _ hm)]
        rw [List.erase_cons, if_neg (by simpa using h)]
        rfl
      · rw [if_neg hm, if_neg ?_]
        · rfl
        · intro hc
          rcases List.mem_cons.mp hc with hc | hc
          · exact h hc.symm
          · exact hm hc

/-- C6 (counterexample): the generated id `"A"` collides with a stored
record's id, yet `add_wish` succeeds, returns the colliding projection, and
leaves two records with id `"A"` in the store: there is no internal retry
with a fresh id and no `StoreUnavailable` — the collision surfaces as
success, contrary to the claim. -/
theorem C6_counterexample :
    (add_wish (fun x => x) "A" "d1" "n1" "m1" "p1"
        [⟨some "A", "n0", "m0", "d0", some "h0", none⟩]).1 =
      sanitized_response "A" "n1" "m1" "d1" ∧
    ((add_wish (fun x => x) "A" "d1" "n1" "m1" "p1"
        [⟨some "A", "n0", "m0", "d0", some "h0", none⟩]).2.1.map Wish.id) =
      [some "A", some "A"] := by
  exact ⟨rfl, rfl⟩

/-- C6 (amended): `add_wish` performs no id-collision handling at all: even
when the generated id already occurs in the store, the record is inserted
unconditionally, the call surfaces success (the sanitized projection and a
`new_wish` broadcast), and the store ends up holding at least two records
with that id.  No retry with a regenerated id and no `StoreUnavailable`
exist in the code. -/
theorem C6_no_conflict_handling (hash : String → String) (wid date n m p : String)
    (s : List Wish) (hcol : some wid ∈ s.map Wish.id) :
    (add_wish hash wid date n m p s).1 = sanitized_response wid n m date ∧
    (add_wish hash wid date n m p s).2.2 =
      [Event.new_wish (sanitized_response wid n m date)] ∧
    2 ≤ ((add_wish hash wid date n m p s).2.1.map Wish.id).count (some wid) := by
  refine ⟨rfl, rfl, ?_⟩
  show 2 ≤ ((some wid :: s.map Wish.id).count (some wid))
  rw [List.count_cons_self]
  have h1 : 0 < (s.map Wish.id).count (some wid) := List.count_pos_iff.mpr hcol
  omega

/-- C6 (witness): the amended theorem applied to the collision input of the
counterexample. -/
theorem C6_witness :
    some "A" ∈ ([⟨some "A", "n0", "m0", "d0", some "h0", none⟩] : List Wish).map Wish.id ∧
    2 ≤ ((add_wish (fun x => x) "A" "d1" "n1" "m1" "p1"
        [⟨some "A", "n0", "m0", "d0", some "h0", none⟩]).2.1.map Wish.id).count (some "A") :=
  ⟨by decide,
   (C6_no_conflict_handling (fun x => x) "A" "d1" "n1" "m1" "p1"
     [⟨some "A", "n0", "m0", "d0", some "h0", none⟩] (by decide)).2.2⟩

/-- C5: no password leakage.  The `add_wish` projection and broadcast
payload are independent of the supplied password and consist of exactly
`{id, name, message, date}`; `get_wishes` output is unchanged when every
stored secret (digest and legacy plaintext) is blanked, so it carries no
password material; and every `delete_wish` broadcast carries only the id. -/
theorem C5_no_password_leakage (hash : String → String)
    (wid date n m p q pw del_id : String) (s : List Wish) :
    (add_wish hash wid date n m p s).1 = (add_wish hash wid date n m q s).1 ∧
    (add_wish hash wid date n m p s).2.2 = (add_wish hash wid date n m q s).2.2 ∧
    (add_wish hash wid date n m p s).1 = sanitized_response wid n m date ∧
    (add_wish hash wid date n m p s).2.2 =
      [Event.new_wish (sanitized_response wid n m date)] ∧
    get_wishes (s.map scrub) = get_wishes s ∧
    ((delete_wish hash del_id pw s).2.2 = [] ∨
     (delete_wish hash del_id pw s).2.2 = [Event.delete_wish del_id]) := by
  refine ⟨rfl, rfl, rfl, rfl, ?_, delete_loop_events hash del_id pw s 0⟩
  show (List.enumFrom 0 (s.map scrub)).map (fun p => sanitize p.1 p.2)
      = (List.enumFrom 0 s).map (fun p => sanitize p.1 p.2)
  rw [List.enumFrom_map, List.map_map]
  rfl

/-- C2 (counterexample): store `[legacy record without id, record with
id "0"]`.  `DeleteWish("0","p")` succeeds — the legacy record at index 0
matches positionally and its plaintext password matches — yet the
immediately following `ListAll` still contains a record with id `"0"`
(the explicit one).  This refutes the claim that a successful delete is
always followed by a listing that excludes the id. -/
theorem C2_counterexample :
    (delete_wish (fun x => x) "0" "p"
        [⟨none, "nl", "ml", "dl", none, some "p"⟩,
         ⟨some "0", "n0", "m0", "d0", some "q", none⟩]).1 = DeleteOutcome.ok ∧
    "0" ∈ ((get_wishes (delete_wish (fun x => x) "0" "p"
        [⟨none, "nl", "ml", "dl", none, some "p"⟩,
         ⟨some "0", "n0", "m0", "d0", some "q", none⟩]).2.1).map SanitizedWish.id) := by
  exact ⟨rfl, by decide⟩

/-- C2 (amended): after `add_wish` succeeds, an immediate `get_wishes`
includes a record with the returned id.  After `delete_wish` succeeds, the
first matching record has been removed; provided every stored record
carries an explicit id and those ids are pairwise distinct, the immediate
`get_wishes` contains no record with the deleted id.  (With legacy id-less
records, positional ids may still alias the deleted id, as the
counterexample shows.) -/
theorem C2_read_after_write (hash : String → String)
    (wid date n m p pw del_id : String) (s : List Wish)
    (hsome : ∀ w ∈ s, w.id.isSome)
    (hnd : (s.map Wish.id).Nodup) :
    wid ∈ ((get_wishes (add_wish hash wid date n m p s).2.1).map SanitizedWish.id) ∧
    ((delete_wish hash del_id pw s).1 = DeleteOutcome.ok →
      del_id ∉ ((get_wishes (delete_wish hash del_id pw s).2.1).map SanitizedWish.id)) := by
  constructor
  · show wid ∈ ((List.enumFrom 0 (mk_new_wish hash wid n m p date :: s)).map
        (fun q => sanitize q.1 q.2)).map SanitizedWish.id
    rw [List.enumFrom_cons, List.map_cons, List.map_cons]
    exact List.mem_cons_self _ _
  · intro hok hmem
    rcases List.mem_map.mp hmem with ⟨sw, hsw, hswid⟩
    rw [get_wishes] at hsw
    rcases List.mem_map.mp hsw with ⟨qp, hqp, hfq⟩
    have hmem2 : qp.2 ∈ (delete_wish hash del_id pw s).2.1 :=
      snd_mem_of_mem_enumFrom _ 0 qp hqp
    have hsub : List.Sublist (delete_wish hash del_id pw s).2.1 s :=
      delete_loop_sublist hash del_id pw s 0
    have hin_s : qp.2 ∈ s := List.Sublist.mem hmem2 hsub
    obtain ⟨x, hx⟩ := Option.isSome_iff_exists.mp (hsome qp.2 hin_s)
    have hne := delete_loop_ok_no_id hash del_id pw s 0 hsome hnd hok qp.2 hmem2
    have hswx : sw.id = x := by
      rw [← hfq]
      show qp.2.id.getD (toString qp.1) = x
      rw [hx]
      rfl
    have hxd : x = del_id := by rw [← hswid, hswx]
    exact hne (by rw [hx, hxd])

/-- C2 (witness): the amended theorem on the one-record store with
explicit id `"a"`. -/
theorem C2_witness :
    (∀ w ∈ ([⟨some "a", "n", "m", "d", some "hp", none⟩] : List Wish), w.id.isSome) ∧
    (([⟨some "a", "n", "m", "d", some "hp", none⟩] : List Wish).map Wish.id).Nodup ∧
    "w1" ∈ ((get_wishes (add_wish (fun x => x) "w1" "d1" "n1" "m1" "p1"
        [⟨some "a", "n", "m", "d", some "hp", none⟩]).2.1).map SanitizedWish.id) ∧
    ((delete_wish (fun x => x) "a" "hp"
        [⟨some "a", "n", "m", "d", some "hp", none⟩]).1 = DeleteOutcome.ok →
      "a" ∉ ((get_wishes (delete_wish (fun x => x) "a" "hp"
        [⟨some "a", "n", "m", "d", some "hp", none⟩]).2.1).map SanitizedWish.id)) :=
  ⟨by decide, by decide,
   (C2_read_after_write (fun x => x) "w1" "d1" "n1" "m1" "p1" "hp" "a"
     [⟨some "a", "n", "m", "d", some "hp", none⟩] (by decide) (by decide)).1,
   (C2_read_after_write (fun x => x) "w1" "d1" "n1" "m1" "p1" "hp" "a"
     [⟨some "a", "n", "m", "d", some "hp", none⟩] (by decide) (by decide)).2⟩

/-- C10: for a stored record lacking an id at position `i` (`i` being the
length of the prefix before it): `get_wishes` reports its id as the
decimal string of `i`; the `delete_wish` matcher accepts an id for it
exactly when that id is all digits, its integer value equals `i`, and it
is the canonical decimal string of `i`; and `delete_wish` with that
decimal string (first match in the store) deletes that record only. -/
theorem C10_legacy_positional_ids (hash : String → String) (pw : String)
    (pre post : List Wish) (w : Wish)
    (hid : w.id = none)
    (hpre : ∀ p ∈ pre.enum, matchesId (toString pre.length) p.1 p.2 = false)
    (hpass : passwordCheck hash pw w = none) :
    (get_wishes (pre ++ w :: post))[pre.length]? = some (sanitize pre.length w) ∧
    (sanitize pre.length w).id = toString pre.length ∧
    (∀ wid : String, matchesId wid pre.length w = true ↔
        (pyIsDigit wid = true ∧ decValue wid = pre.length ∧
         wid = toString pre.length)) ∧
    delete_wish hash (toString pre.length) pw (pre ++ w :: post) =
      (DeleteOutcome.ok, pre ++ post, [Event.delete_wish (toString pre.length)]) := by
  refine ⟨?_, ?_, ?_, ?_⟩
  · show ((List.enumFrom 0 (pre ++ w :: post)).map
        (fun q => sanitize q.1 q.2))[pre.length]? = some (sanitize pre.length w)
    rw [List.getElem?_map, getElem?_enumFrom,
      List.getElem?_append_right (le_refl pre.length), Nat.sub_self]
    simp
  · show w.id.getD (toString pre.length) = toString pre.length
    rw [hid]
    rfl
  · intro wid
    constructor
    · intro hm
      have he := (matchesId_none_iff wid pre.length w hid).mp hm
      subst he
      exact ⟨pyIsDigit_toString _, decValue_toString _, rfl⟩
    · intro hc
      exact (matchesId_none_iff wid pre.length w hid).mpr hc.2.2
  · have hstep : delete_loop hash (toString pre.length) pw (0 + pre.length) (w :: post)
        = (DeleteOutcome.ok, post, [Event.delete_wish (toString pre.length)]) := by
      rw [Nat.zero_add, delete_loop,
        if_pos ((matchesId_none_iff (toString pre.length) pre.length w hid).mpr rfl), hpass]
    rw [delete_wish,
      delete_loop_skip hash (toString pre.length) pw pre 0 (w :: post) hpre, hstep]

/-- C10 (witness): a store holding one legacy record; its reported id is
`str(0)` and deleting by that id succeeds. -/
theorem C10_witness :
    passwordCheck (fun x => x) "p" ⟨none, "n", "m", "d", none, some "p"⟩ = none ∧
    delete_wish (fun x => x) (toString 0) "p" [⟨none, "n", "m", "d", none, some "p"⟩] =
      (DeleteOutcome.ok, [], [Event.delete_wish (toString 0)]) :=
  ⟨by decide,
   (C10_legacy_positional_ids (fun x => x) "p" [] []
     ⟨none, "n", "m", "d", none, some "p"⟩ rfl (by decide) (by decide)).2.2.2⟩

/-- C7: over every store reachable from the empty store by the code's
operations under a monotone clock, the creation times are newest-first
(`List.Pairwise` descending); each `add_wish` places its record before all
previously stored records; every `delete_wish` leaves an order-preserving
sublist of the store — a successful one erases exactly one index; and
`get_wishes` returns the records positionally, in that store order. -/
theorem C7_newest_first (hash : String → String) (fmt : Nat → String) (t : Nat)
    (l : List (Nat × Wish)) (h : Reach hash fmt t l) :
    List.Pairwise (fun a b : Nat × Wish => b.1 ≤ a.1) l ∧
    (∀ wid dt n m p, (add_wish hash wid dt n m p (l.map Prod.snd)).2.1
        = mk_new_wish hash wid n m p dt :: l.map Prod.snd) ∧
    (∀ wid pw, List.Sublist (delete_wish hash wid pw (l.map Prod.snd)).2.1
        (l.map Prod.snd)) ∧
    (∀ wid pw, (delete_wish hash wid pw (l.map Prod.snd)).1 = DeleteOutcome.ok →
        ∃ i, (delete_wish hash wid pw (l.map Prod.snd)).2.1
          = (l.eraseIdx i).map Prod.snd) ∧
    get_wishes (l.map Prod.snd) = l.enum.map (fun q => sanitize q.1 q.2.2) := by
  refine ⟨(reach_pairwise hash fmt t l h).1, fun wid dt n m p => rfl,
    fun wid pw => delete_loop_sublist hash wid pw _ 0, ?_, get_wishes_paired l⟩
  intro wid pw hok
  obtain ⟨i, hi⟩ := delete_loop_ok_eraseIdx hash wid pw (l.map Prod.snd) 0 hok
  exact ⟨i, by rw [delete_wish, hi, map_eraseIdx]⟩

/-- C7 (witness): two adds at times 0 and 1; the creation times are
newest-first and `get_wishes` lists the records in store order. -/
theorem C7_witness :
    List.Pairwise (fun a b : Nat × Wish => b.1 ≤ a.1)
      [(1, mk_new_wish (fun x => x) "b" "nb" "mb" "pb" "dt"),
       (0, mk_new_wish (fun x => x) "a" "na" "ma" "pa" "dt")] ∧
    get_wishes ([(1, mk_new_wish (fun x => x) "b" "nb" "mb" "pb" "dt"),
        (0, mk_new_wish (fun x => x) "a" "na" "ma" "pa" "dt")].map Prod.snd) =
      [(1, mk_new_wish (fun x => x) "b" "nb" "mb" "pb" "dt"),
       (0, mk_new_wish (fun x => x) "a" "na" "ma" "pa" "dt")].enum.map
        (fun q => sanitize q.1 q.2.2) := by
  have hR : Reach (fun x => x) (fun _ => "dt") 1
      [(1, mk_new_wish (fun x => x) "b" "nb" "mb" "pb" "dt"),
       (0, mk_new_wish (fun x => x) "a" "na" "ma" "pa" "dt")] :=
    Reach.add 1 "b" "nb" "mb" "pb"
      (Reach.add 0 "a" "na" "ma" "pa" Reach.init (Nat.le_refl 0)) (Nat.zero_le 1)
  exact ⟨(C7_newest_first (fun x => x) (fun _ => "dt") 1 _ hR).1,
    (C7_newest_first (fun x => x) (fun _ => "dt") 1 _ hR).2.2.2.2⟩

/-- Over the ASCII table, `int()` on an all-ASCII-digit character list
never raises and folds the decimal value. -/
theorem pyIntStep_ascii (cs : List Char) : ∀ acc : Nat, cs.all Char.isDigit = true →
    cs.foldl (pyIntStep decimalTable) (some acc) = some (cs.foldl decStep acc) := by
  induction cs with
  | nil => intro acc _; rfl
  | cons c cs ih =>
    intro acc h
    rw [List.all_cons, Bool.and_eq_true] at h
    have hd : decimalTable c = some (c.toNat - 48) := by
      rw [decimalTable, if_pos h.1]
    rw [List.foldl_cons, List.foldl_cons]
    have hstep : pyIntStep decimalTable (some acc) c = some (decStep acc c) := by
      simp only [pyIntStep, hd, decStep]
    rw [hstep]
    exact ih (decStep acc c) h.2

/-- Over the ASCII table, `int(s)` on an all-ASCII-digit string computes
`decValue s`. -/
theorem pyIntU_ascii (s : String) (h : s.data.all Char.isDigit = true) :
    pyIntU decimalTable s = some (decValue s) :=
  pyIntStep_ascii s.data 0 h

/-- The ASCII id test is the no-raise fragment of the Unicode-aware one:
over the ASCII tables the two agree and no `ValueError` occurs. -/
theorem matchesIdU_ascii (wid : String) (i : Nat) (w : Wish) :
    matchesIdU Char.isDigit decimalTable wid i w = some (matchesId wid i w) := by
  cases hw : w.id with
  | some s => rw [matchesIdU, matchesId, hw]
  | none =>
    rw [matchesIdU, matchesId, hw]
    by_cases h : pyIsDigit wid
    · have hall : wid.data.all Char.isDigit = true := by
        rw [pyIsDigit, Bool.and_eq_true] at h
        exact h.2
      rw [if_pos (show pyIsDigitU Char.isDigit wid = true from h), pyIntU_ascii wid hall]
      show some ((i == decValue wid) && (toString i == wid))
          = some (pyIsDigit wid && (i == decValue wid) && (toString i == wid))
      rw [h]
      simp
    · rw [if_neg (show ¬ pyIsDigitU Char.isDigit wid = true from h)]
      show some false = some (pyIsDigit wid && (i == decValue wid) && (toString i == wid))
      have hf : pyIsDigit wid = false := by
        cases hc : pyIsDigit wid
        · rfl
        · exact absurd hc h
      rw [hf]
      simp

/-- Over the ASCII tables the refined delete loop never raises and
agrees with `delete_loop`. -/
theorem delete_loopU_ascii (hash : String → String) (wid pw : String) :
    ∀ (s : List Wish) (k : Nat),
      delete_loopU Char.isDigit decimalTable hash wid pw k s
        = some (delete_loop hash wid pw k s) := by
  intro s
  induction s with
  | nil => intro k; rfl
  | cons w rest ih =>
    intro k
    rw [delete_loopU, delete_loop, matchesIdU_ascii]
    by_cases h0 : matchesId wid k w
    · simp only [h0, if_true]
      cases passwordCheck hash pw w with
      | some err => rfl
      | none => rfl
    · have hf : matchesId wid k w = false := by
        cases hc : matchesId wid k w
        · rfl
        · exact absurd hc h0
      simp only [hf, Bool.false_eq_true, if_false]
      rw [ih (k + 1)]

/-- When every evaluation from index `k` on is a clean non-match, the
refined loop reports 404 with the store unchanged and no broadcast. -/
theorem delete_loopU_all_false (isdig : Char → Bool) (decv : Char → Option Nat)
    (hash : String → String) (wid pw : String) :
    ∀ (s : List Wish) (k : Nat),
      (∀ p ∈ s.enumFrom k, matchesIdU isdig decv wid p.1 p.2 = some false) →
      delete_loopU isdig decv hash wid pw k s
        = some (.httpError 404 "Wish not found", s, []) := by
  intro s
  induction s with
  | nil => intro k _; rfl
  | cons w rest ih =>
    intro k h
    have h0 : matchesIdU isdig decv wid k w = some false :=
      h (k, w) (by rw [List.enumFrom_cons]; exact List.mem_cons_self _ _)
    have hrest : ∀ p ∈ rest.enumFrom (k + 1),
        matchesIdU isdig decv wid p.1 p.2 = some false := by
      intro p hp
      exact h p (by rw [List.enumFrom_cons]; exact List.mem_cons_of_mem _ hp)
    rw [delete_loopU, h0, ih (k + 1) hrest]

/-- When no evaluation from index `k` on is a clean match, the refined
loop either reports 404 with the store unchanged, or raises. -/
theorem delete_loopU_no_true (isdig : Char → Bool) (decv : Char → Option Nat)
    (hash : String → String) (wid pw : String) :
    ∀ (s : List Wish) (k : Nat),
      (∀ p ∈ s.enumFrom k, matchesIdU isdig decv wid p.1 p.2 ≠ some true) →
      delete_loopU isdig decv hash wid pw k s
          = some (.httpError 404 "Wish not found", s, []) ∨
      delete_loopU isdig decv hash wid pw k s = none := by
  intro s
  induction s with
  | nil => intro k _; left; rfl
  | cons w rest ih =>
    intro k h
    have h0 : matchesIdU isdig decv wid k w ≠ some true :=
      h (k, w) (by rw [List.enumFrom_cons]; exact List.mem_cons_self _ _)
    have hrest : ∀ p ∈ rest.enumFrom (k + 1),
        matchesIdU isdig decv wid p.1 p.2 ≠ some true := by
      intro p hp
      exact h p (by rw [List.enumFrom_cons]; exact List.mem_cons_of_mem _ hp)
    cases hm : matchesIdU isdig decv wid k w with
    | none =>
      right
      rw [delete_loopU, hm]
    | some b =>
      cases b with
      | true => exact absurd hm h0
      | false =>
        rcases ih (k + 1) hrest with h404 | hnone
        · left
          rw [delete_loopU, hm, h404]
        · right
          rw [delete_loopU, hm, hnone]

/-- The refined loop skips a front segment of clean non-matches. -/
theorem delete_loopU_skip (isdig : Char → Bool) (decv : Char → Option Nat)
    (hash : String → String) (wid pw : String) :
    ∀ (pre : List Wish) (k : Nat) (rest : List Wish),
      (∀ p ∈ pre.enumFrom k, matchesIdU isdig decv wid p.1 p.2 = some false) →
      delete_loopU isdig decv hash wid pw k (pre ++ rest)
        = (delete_loopU isdig decv hash wid pw (k + pre.length) rest).map
            (fun r => (r.1, pre ++ r.2.1, r.2.2)) := by
  intro pre
  induction pre with
  | nil =>
    intro k rest _
    simp only [List.length_nil, Nat.add_zero, List.nil_append]
    cases delete_loopU isdig decv hash wid pw k rest with
    | none => rfl
    | some r => rfl
  | cons w pre ih =>
    intro k rest h
    have h0 : matchesIdU isdig decv wid k w = some false :=
      h (k, w) (by rw [List.enumFrom_cons]; exact List.mem_cons_self _ _)
    have hpre : ∀ p ∈ pre.enumFrom (k + 1),
        matchesIdU isdig decv wid p.1 p.2 = some false := by
      intro p hp
      exact h p (by rw [List.enumFrom_cons]; exact List.mem_cons_of_mem _ hp)
    have harith : k + 1 + pre.length = k + (pre.length + 1) := by omega
    rw [List.cons_append, delete_loopU, h0, ih (k + 1) rest hpre, harith]
    simp only [List.length_cons]
    cases delete_loopU isdig decv hash wid pw (k + (pre.length + 1)) rest with
    | none => rfl
    | some r => rfl

/-- C3 (counterexample): store `[legacy id-less record, record with id
"²" and stored digest "h1"]`, request id `"²"` with a wrong password.
A record with the given id is present and its digest differs from the
supplied password's digest, but at index 0 the id-less record makes the
code evaluate `int("²")` — `"²".isdigit()` is true in Python while
`int("²")` raises `ValueError` — so the route returns HTTP 500, not the
401 Unauthorized the claim asserts (the store is unchanged and nothing
is broadcast, but the outcome is a server error, not Unauthorized). -/
theorem C3_counterexample :
    some "²" ∈ ([⟨none, "nl", "ml", "dl", none, some "pl"⟩,
        ⟨some "²", "n1", "m1", "d1", some "h1", none⟩] : List Wish).map Wish.id ∧
    (fun x : String => x) "p2" ≠ "h1" ∧
    delete_wishU isdigitTable decimalTable (fun x => x) "²" "p2"
        [⟨none, "nl", "ml", "dl", none, some "pl"⟩,
         ⟨some "²", "n1", "m1", "d1", some "h1", none⟩] =
      (DeleteOutcome.httpError 500 (valueErrorDetail "²"),
       [⟨none, "nl", "ml", "dl", none, some "pl"⟩,
        ⟨some "²", "n1", "m1", "d1", some "h1", none⟩], []) := by
  exact ⟨by decide, by decide, rfl⟩

/-- C3 (amended): when the first record matching the supplied id stores
a password digest differing from the supplied password's digest, and
every earlier record evaluates to a clean non-match (in particular no
id-less record triggers the `int()` `ValueError` path), `delete_wish`
fails with 401 "Invalid password", returns the stored collection
unchanged, and broadcasts no event.  Without the clean-prefix condition
an earlier id-less record can make `int(wish_id)` raise and the route
returns HTTP 500 instead (see the counterexample). -/
theorem C3_unauthorized_no_mutation (isdig : Char → Bool) (decv : Char → Option Nat)
    (hash : String → String) (wid pw : String)
    (pre post : List Wish) (w : Wish) (hv : String)
    (hpre : ∀ p ∈ pre.enum, matchesIdU isdig decv wid p.1 p.2 = some false)
    (hmatch : matchesIdU isdig decv wid pre.length w = some true)
    (hhash : w.password_hash = some hv)
    (hne : hash pw ≠ hv) :
    delete_wishU isdig decv hash wid pw (pre ++ w :: post) =
      (DeleteOutcome.httpError 401 "Invalid password", pre ++ w :: post, []) := by
  have hstep : delete_loopU isdig decv hash wid pw (0 + pre.length) (w :: post)
      = some (DeleteOutcome.httpError 401 "Invalid password", w :: post, []) := by
    rw [Nat.zero_add, delete_loopU, hmatch]
    have hpc : passwordCheck hash pw w =
        some (DeleteOutcome.httpError 401 "Invalid password") := by
      rw [passwordCheck, hhash]
      simp [hne]
    rw [hpc]
  rw [delete_wishU, delete_loopU_skip isdig decv hash wid pw pre 0 (w :: post) hpre, hstep]
  rfl

/-- C3 (witness): wrong password for the only record, explicit id `"a"`,
over the ASCII tables. -/
theorem C3_witness :
    matchesIdU Char.isDigit decimalTable "a" 0
      ⟨some "a", "n", "m", "d", some "p1", none⟩ = some true ∧
    (fun x : String => x) "p2" ≠ "p1" ∧
    delete_wishU Char.isDigit decimalTable (fun x => x) "a" "p2"
        [⟨some "a", "n", "m", "d", some "p1", none⟩] =
      (DeleteOutcome.httpError 401 "Invalid password",
       [⟨some "a", "n", "m", "d", some "p1", none⟩], []) :=
  ⟨by decide, by decide,
   C3_unauthorized_no_mutation Char.isDigit decimalTable (fun x => x) "a" "p2" [] []
     ⟨some "a", "n", "m", "d", some "p1", none⟩ "p1"
     (by decide) (by decide) rfl (by decide)⟩

/-- C8 (counterexample): store `[legacy id-less record]`, request id
`"²"`.  No stored record has that id — no evaluation of the lookup is a
match — yet the route returns HTTP 500, not the 404 NotFound the claim
asserts: `"²".isdigit()` is true in Python, so the code evaluates
`int("²")`, which raises `ValueError`. -/
theorem C8_counterexample :
    (∀ p ∈ ([⟨none, "nl", "ml", "dl", none, some "pl"⟩] : List Wish).enum,
      matchesIdU isdigitTable decimalTable "²" p.1 p.2 ≠ some true) ∧
    delete_wishU isdigitTable decimalTable (fun x => x) "²" "q"
        [⟨none, "nl", "ml", "dl", none, some "pl"⟩] =
      (DeleteOutcome.httpError 500 (valueErrorDetail "²"),
       [⟨none, "nl", "ml", "dl", none, some "pl"⟩], []) := by
  exact ⟨by decide, rfl⟩

/-- C8 (amended): when no stored record matches the supplied id — no
evaluation of the lookup yields a match — `delete_wish` fails without
mutation or broadcast: the store is returned unchanged, nothing is
broadcast, and the outcome is 404 "Wish not found", or HTTP 500 when an
id-less record makes `int(wish_id)` raise `ValueError`; 404 is
guaranteed whenever every evaluation is a clean non-match (in
particular for all-ASCII ids, or stores whose records all carry
explicit ids). -/
theorem C8_delete_not_found (isdig : Char → Bool) (decv : Char → Option Nat)
    (hash : String → String) (wid pw : String) (s : List Wish)
    (h : ∀ p ∈ s.enum, matchesIdU isdig decv wid p.1 p.2 ≠ some true) :
    (delete_wishU isdig decv hash wid pw s).2.1 = s ∧
    (delete_wishU isdig decv hash wid pw s).2.2 = [] ∧
    ((delete_wishU isdig decv hash wid pw s).1 =
        DeleteOutcome.httpError 404 "Wish not found" ∨
     (delete_wishU isdig decv hash wid pw s).1 =
        DeleteOutcome.httpError 500 (valueErrorDetail wid)) ∧
    ((∀ p ∈ s.enum, matchesIdU isdig decv wid p.1 p.2 = some false) →
      delete_wishU isdig decv hash wid pw s =
        (DeleteOutcome.httpError 404 "Wish not found", s, [])) := by
  rcases delete_loopU_no_true isdig decv hash wid pw s 0 h with h404 | hnone
  · rw [delete_wishU, h404]
    exact ⟨rfl, rfl, Or.inl rfl, fun _ => rfl⟩
  · rw [delete_wishU, hnone]
    refine ⟨rfl, rfl, Or.inr rfl, ?_⟩
    intro hall
    rw [delete_loopU_all_false isdig decv hash wid pw s 0 hall] at hnone
    exact absurd hnone (by simp)

/-- C8 (witness): deleting id `"b"` from a store holding only id `"a"`,
over the ASCII tables: the clean-non-match condition holds everywhere
and the 404 conclusion follows. -/
theorem C8_witness :
    (∀ p ∈ ([⟨some "a", "n", "m", "d", some "h", none⟩] : List Wish).enum,
      matchesIdU Char.isDigit decimalTable "b" p.1 p.2 ≠ some true) ∧
    delete_wishU Char.isDigit decimalTable (fun x => x) "b" "q"
        [⟨some "a", "n", "m", "d", some "h", none⟩] =
      (DeleteOutcome.httpError 404 "Wish not found",
       [⟨some "a", "n", "m", "d", some "h", none⟩], []) :=
  ⟨by decide,
   (C8_delete_not_found Char.isDigit decimalTable (fun x => x) "b" "q"
     [⟨some "a", "n", "m", "d", some "h", none⟩] (by decide)).2.2.2 (by decide)⟩

end Guestbook
